import Mathlib

/-!
Verification of the ofxEbbControl EiBotBoard driver (src/src/ofxEbbControl.h)
against its natural-language specification.

The C++ header is shallowly embedded below.  Strings are modeled as
`List Char`, C++ `int` as `Int` (the values involved are far below the
32-bit overflow range), and every function that can throw is modeled with
`Option`/`Except`.  The `sendCommand` read loops are modeled with an
explicit fuel parameter and an idealized millisecond clock in which a
1 ms poll sleep advances time by exactly 1 and all other operations are
instantaneous.
-/

namespace OfxEbb

/-! ## Character predicates (C `isdigit`, `isspace`, `isxdigit`) -/

/-- C `isdigit`. -/
def isDigitC (c : Char) : Bool :=
  '0' ≤ c && c ≤ '9'

/-- C `isspace` (the whitespace characters std::stoi skips). -/
def isSpaceC (c : Char) : Bool :=
  c = ' ' || c = '\t' || c = '\n' || c = '\r' || c = '\x0b' || c = '\x0c'

/-! ## std::to_string — decimal rendering of integers -/

/-- The decimal digit character for `d < 10` (the digits emitted by
`std::to_string`). -/
def digitChr (d : Nat) : Char :=
  Char.ofNat (48 + d)

/-- Decimal digits of a natural number, most significant first, as emitted
by `std::to_string`. -/
def natDigits (n : Nat) : List Char :=
  if h : n < 10 then [digitChr n]
  else natDigits (n / 10) ++ [digitChr (n % 10)]
termination_by n
decreasing_by
  exact Nat.div_lt_self (by omega) (by omega)

/-- `std::to_string` on a (signed) integer. -/
def intToString : Int → List Char
  | Int.ofNat n => natDigits n
  | Int.negSucc m => '-' :: natDigits (m + 1)

/-! ## std::stoi / std::stoul -/

/-- Value of a run of decimal digit characters, accumulated left to right
exactly as a base-10 parser does. -/
def strToNat (ds : List Char) : Nat :=
  ds.foldl (fun a c => a * 10 + (c.toNat - 48)) 0

/-- `std::stoi` (base 10): skip leading whitespace, accept an optional
sign, then require at least one decimal digit; extra trailing characters
are ignored.  `none` models the `std::invalid_argument` throw.  Overflow
is not modeled (all inputs exercised stay far below `INT_MAX`). -/
def stoiModel (s : List Char) : Option Int :=
  match s.dropWhile isSpaceC with
  | [] => none
  | c :: rest =>
    if c = '-' then
      let ds := rest.takeWhile isDigitC
      if ds.isEmpty then none else some (-(strToNat ds : Int))
    else if c = '+' then
      let ds := rest.takeWhile isDigitC
      if ds.isEmpty then none else some ((strToNat ds : Int))
    else
      let ds := (c :: rest).takeWhile isDigitC
      if ds.isEmpty then none else some ((strToNat ds : Int))

/-! ## `find("OK")` / `substr` and related buffer cleanup helpers -/

/-- `s.substr(0, s.find("OK"))` when `"OK"` occurs in `s`, and `s` itself
otherwise: everything strictly before the first occurrence of the
two-character marker (the whole string when there is none). -/
def dropFromOK : List Char → List Char
  | [] => []
  | [c] => [c]
  | c1 :: c2 :: rest =>
    if c1 = 'O' && c2 = 'K' then []
    else c1 :: dropFromOK (c2 :: rest)

/-- `s.find("OK") != std::string::npos`. -/
def containsOK : List Char → Bool
  | [] => false
  | [_] => false
  | c1 :: c2 :: rest => (c1 = 'O' && c2 = 'K') || containsOK (c2 :: rest)

/-! ## The `split` helper (std::getline based, lines 1524-1539) -/

/-- The per-item cleanup in `split`: drop one trailing `'\r'` if present. -/
def stripTrailingCR (l : List Char) : List Char :=
  match l.getLast? with
  | some '\r' => l.dropLast
  | _ => l

/-- One `std::getline` pass: `acc` holds the characters of the current
token in reverse.  Hitting the delimiter emits the token; hitting it as
the last character stops without a trailing empty token (`getline` then
fails at end-of-stream); end of input emits the final partial token. -/
def splitCppAux (d : Char) (acc : List Char) : List Char → List (List Char)
  | [] => [stripTrailingCR acc.reverse]
  | c :: cs =>
    if c = d then
      if cs.isEmpty then [stripTrailingCR acc.reverse]
      else stripTrailingCR acc.reverse :: splitCppAux d [] cs
    else splitCppAux d (c :: acc) cs

/-- `split(s, delim)` from the source (lines 1524-1539): repeated
`std::getline` with the given delimiter.  An empty input yields no
tokens, a trailing delimiter yields no trailing empty token, and each
token has a trailing `'\r'` removed. -/
def splitCpp (d : Char) : List Char → List (List Char)
  | [] => []
  | c :: cs => splitCppAux d [] (c :: cs)

/-! ## sendCommand per-opcode response post-processing (lines 283-378)

`sendCommand` first accumulates the raw reply (framing, modeled further
below); the functions here are the per-opcode cleanup branches it then
applies to the accumulated buffer before returning it to the facade. -/

/-- `buf.find(cOK) != npos` where `cOK` is the three-character pattern
`c0` followed by `"OK"` (used by the `QP`/`QB`/`QR` branches). -/
def containsChOK (c0 : Char) : List Char → Bool
  | c1 :: c2 :: c3 :: rest =>
    (c1 = c0 && c2 = 'O' && c3 = 'K') || containsChOK c0 (c2 :: c3 :: rest)
  | _ => false

/-- `QP` branch (lines 284-291): reduce the buffer to `"0"` if it contains
`"0OK"`, else `"1"`. -/
def sendCommandQP (buf : List Char) : List Char :=
  if containsChOK '0' buf then ['0'] else ['1']

/-- Characters kept by the `QS` cleanup: digits, comma, minus. -/
def isQsKeep (c : Char) : Bool :=
  isDigitC c || c = ',' || c = '-'

/-- `QS` branch (lines 292-308): drop everything from the `"OK"` marker on,
then keep only digits, commas and minus signs. -/
def sendCommandQS (buf : List Char) : List Char :=
  (dropFromOK buf).filter isQsKeep

/-- `QT` branch (lines 309-326): drop from `"OK"`, remove CR/LF, and
substitute the placeholder nickname when the result is empty. -/
def sendCommandQT (buf : List Char) : List Char :=
  let nickname := (dropFromOK buf).filter (fun c => !(c = '\r' || c = '\n'))
  if nickname.isEmpty then "EBB Controller".toList else nickname

/-- Characters kept by the `QC` cleanup: digits and comma. -/
def isQcKeep (c : Char) : Bool :=
  isDigitC c || c = ','

/-- `QC` branch (lines 334-350): drop from `"OK"`, keep digits and commas. -/
def sendCommandQC (buf : List Char) : List Char :=
  (dropFromOK buf).filter isQcKeep

/-- `QN` branch (lines 358-371): drop from `"OK"`, keep only digits. -/
def sendCommandQN (buf : List Char) : List Char :=
  (dropFromOK buf).filter isDigitC

/-- Generic tail branch (lines 372-378): any buffer containing `"OK"`
collapses to the bare marker `"OK"`; anything else is returned as-is. -/
def sendCommandGeneric (buf : List Char) : List Char :=
  if containsOK buf then 'O' :: 'K' :: [] else buf

/-! ## Communication failures

`sendCommand` throws `std::runtime_error` on timeout; `std::stoi` throws
on unparsable numerics.  A facade call receives either the post-processed
reply or such an exception. -/

/-- A failure raised below a Dispatch Facade operation. -/
inductive CommErr
  | timeout
  | deviceError
deriving DecidableEq

/-- The input to a facade decoder: either the raw accumulated reply buffer
handed to the post-processing branch, or the exception `sendCommand`
threw. -/
abbrev Reply := Except CommErr (List Char)

/-! ## Dispatch Facade query operations -/

/-- `getStepPositions` (lines 979-1009).  On any exception the `catch`
branch returns `{0, 0}`; otherwise the `QS`-cleaned reply is stripped of
`"OK"` once more, cleaned, split on commas and its first two fields parsed
with `std::stoi` (whose own throw is also caught as `{0, 0}`).  Fewer than
two fields likewise yield `{0, 0}`. -/
def getStepPositions : Reply → Int × Int
  | Except.error _ => (0, 0)
  | Except.ok buf =>
    let resp := sendCommandQS buf
    let stepPos := dropFromOK resp
    let cleaned := stepPos.filter isQsKeep
    match splitCpp ',' cleaned with
    | v0 :: v1 :: _ =>
      match stoiModel v0, stoiModel v1 with
      | some a, some b => (a, b)
      | _, _ => (0, 0)
    | _ => (0, 0)

/-- `getLayer` (lines 891-917).  The generic `sendCommand` branch already
collapses any `QL` reply containing `"OK"` to the bare marker; the facade
then strips `"OK"`, keeps digits, and returns 0 on an empty remainder or
on any exception. -/
def getLayer : Reply → Int
  | Except.error _ => 0
  | Except.ok buf =>
    let resp := sendCommandGeneric buf
    let layerValue := dropFromOK resp
    let cleaned := layerValue.filter isDigitC
    if cleaned.isEmpty then 0
    else
      match stoiModel cleaned with
      | some v => v
      | none => 0

/-- `getNickname` (lines 1014-1039).  Strips `"OK"`, removes CR/LF, and
substitutes `"EBB Controller"` for an empty remainder or any exception. -/
def getNickname : Reply → List Char
  | Except.error _ => "EBB Controller".toList
  | Except.ok buf =>
    let resp := sendCommandQT buf
    let nickname := (dropFromOK resp).filter (fun c => !(c = '\r' || c = '\n'))
    if nickname.isEmpty then "EBB Controller".toList else nickname

/-- `getNodeCount` (lines 1324-1349).  Strips `"OK"`, keeps digits, parses
with `std::stoul` and truncates to `uint32_t`; an empty remainder, a parse
failure or any exception yields 0. -/
def getNodeCount : Reply → Nat
  | Except.error _ => 0
  | Except.ok buf =>
    let resp := sendCommandQN buf
    let resp2 := dropFromOK resp
    let cleaned := resp2.filter isDigitC
    if cleaned.isEmpty then 0
    else (strToNat cleaned) % (2 ^ 32)

/-- `getCurrentInfo` (lines 774-813).  The two comma-separated 10-bit ADC
readings are scaled to a current/voltage pair; the exact-rational field ℚ
stands in for C++ `double` (the claim settled here only concerns the
error path, where the values are exactly 0).  Any exception or a reply
with fewer than two fields yields `{0.0, 0.0}`. -/
def getCurrentInfo (oldBoard : Bool) : Reply → ℚ × ℚ
  | Except.error _ => (0, 0)
  | Except.ok buf =>
    let resp := sendCommandQC buf
    let values := dropFromOK resp
    let cleaned := values.filter isQcKeep
    match splitCpp ',' cleaned with
    | p0 :: p1 :: _ =>
      match stoiModel p0, stoiModel p1 with
      | some a, some b =>
        let ra0 : ℚ := (33 / 10) * a / 1023
        let vp : ℚ := (33 / 10) * b / 1023
        let scale : ℚ := if oldBoard then 1 / 11 else 1 / (92 / 10)
        (ra0 / (176 / 100), vp / scale + 3 / 10)
      | _, _ => (0, 0)
    | _ => (0, 0)

/-- `StopInfo` (lines 495-499). -/
structure StopInfo where
  interrupted : Bool
  fifo : Int × Int
  remaining : Int × Int
deriving DecidableEq

/-- `emergencyStop` (lines 500-536).  The generic `sendCommand` branch
collapses the reply; the facade strips `"OK"`, cleans, splits and needs at
least five fields, any failure being caught as an all-zero `StopInfo`. -/
def emergencyStop : Reply → StopInfo
  | Except.error _ => ⟨false, (0, 0), (0, 0)⟩
  | Except.ok buf =>
    let resp := sendCommandGeneric buf
    let stopData := dropFromOK resp
    let cleaned := stopData.filter isQsKeep
    match splitCpp ',' cleaned with
    | v0 :: v1 :: v2 :: v3 :: v4 :: _ =>
      match stoiModel v1, stoiModel v2, stoiModel v3, stoiModel v4 with
      | some f1, some f2, some r1, some r2 =>
        ⟨v0 == ['1'], (f1, f2), (r1, r2)⟩
      | _, _, _, _ => ⟨false, (0, 0), (0, 0)⟩
    | _ => ⟨false, (0, 0), (0, 0)⟩

/-- `isPenDown` (lines 941-955): true iff the `sendCommand` reply contains
both a `'0'` and the substring `"OK"`; any exception yields false. -/
def isPenDown : Reply → Bool
  | Except.error _ => false
  | Except.ok buf =>
    let resp := sendCommandQP buf
    resp.contains '0' && containsOK resp

/-! ## Motor configuration state (enableMotors / getMotorConfig)

The header holds TWO distinct function-local statics, both initialized to
`{MOTOR_STEP_DIV16, MOTOR_STEP_DIV16} = {1, 1}`:
`getLastKnownMotorConfig()`'s static (lines 1562-1565), written by
`enableMotors` (line 482-483), and the separate static declared inside
`getMotorConfig` itself (line 832), which is the one `getMotorConfig`
narrows and returns.  The state below carries both. -/

/-- `MOTOR_DISABLE` (line 45). -/
def MOTOR_DISABLE : Int := 0

/-- `MOTOR_STEP_DIV16` (line 46). -/
def MOTOR_STEP_DIV16 : Int := 1

/-- The two function-local static caches. -/
structure EbbState where
  emCache : Int × Int
  qmCache : Int × Int
deriving DecidableEq

/-- Both statics start at `{MOTOR_STEP_DIV16, MOTOR_STEP_DIV16}`. -/
def initState : EbbState :=
  ⟨(MOTOR_STEP_DIV16, MOTOR_STEP_DIV16), (MOTOR_STEP_DIV16, MOTOR_STEP_DIV16)⟩

/-- `enableMotors` (lines 478-488): stores `{m1Mode, m2Mode}` into the
`getLastKnownMotorConfig()` static, with no range validation, before
transmitting `EM,m1,m2`. -/
def enableMotors (m1Mode m2Mode : Int) (s : EbbState) : EbbState :=
  { s with emCache := (m1Mode, m2Mode) }

/-- `getMotorConfig` (lines 829-859): sends `QM`, and, when the cleaned
reply splits into at least four fields, narrows ITS OWN static toward
`MOTOR_DISABLE` for each motor whose moving-flag field is not `"1"`; the
(possibly narrowed) own static is returned.  Any exception leaves the
static untouched and returns `{MOTOR_STEP_DIV16, MOTOR_STEP_DIV16}`.
Returns the next state paired with the returned configuration. -/
def getMotorConfig (reply : Reply) (s : EbbState) : EbbState × (Int × Int) :=
  match reply with
  | Except.error _ => (s, (MOTOR_STEP_DIV16, MOTOR_STEP_DIV16))
  | Except.ok buf =>
    let parts := splitCpp ',' buf
    if 4 ≤ parts.length then
      let motor1Enabled := parts.getD 2 [] == ['1']
      let motor2Enabled := parts.getD 3 [] == ['1']
      let c1 := if motor1Enabled then s.qmCache.1 else MOTOR_DISABLE
      let c2 := if motor2Enabled then s.qmCache.2 else MOTOR_DISABLE
      (⟨s.emCache, (c1, c2)⟩, (c1, c2))
    else (s, s.qmCache)

/-- A call that touches the motor-configuration caches: an
`enableMotors(m1, m2)` call or a `getMotorConfig` call whose `QM`
exchange produced the given reply. -/
inductive EbbAction
  | enable (m1 m2 : Int)
  | query (reply : Reply)

/-- State transition of one action. -/
def ebbStep (s : EbbState) (a : EbbAction) : EbbState :=
  match a with
  | EbbAction.enable m1 m2 => enableMotors m1 m2 s
  | EbbAction.query r => (getMotorConfig r s).1

/-- A mode is one of the six enumerated microstep modes (lines 45-50):
`MOTOR_DISABLE = 0` up to `MOTOR_STEP_DIV1 = 5`. -/
def validMode (m : Int) : Bool :=
  0 ≤ m && m ≤ 5

/-- An action keeps to documented arguments iff any `enableMotors` modes
it carries are valid microstep modes. -/
def validAction : EbbAction → Bool
  | EbbAction.enable m1 m2 => validMode m1 && validMode m2
  | EbbAction.query _ => true

/-- Both slots of both caches hold enumerated microstep modes. -/
def cacheInv (s : EbbState) : Bool :=
  validMode s.emCache.1 && validMode s.emCache.2 &&
    validMode s.qmCache.1 && validMode s.qmCache.2

/-! ## getGeneralStatus (lines 862-886) -/

/-- The eight named flags, in the declaration order of the source
struct. -/
structure GeneralStatus where
  pinRB5 : Bool
  pinRB2 : Bool
  buttonPrg : Bool
  penDown : Bool
  executing : Bool
  motor1 : Bool
  motor2 : Bool
  fifoEmpty : Bool
deriving DecidableEq

/-- The `bitSet` lambda (lines 878-880): `(statusByte & (1 << b)) != 0`. -/
def bitSet (statusByte b : Nat) : Bool :=
  statusByte &&& (1 <<< b) != 0

/-- The brace-initializer of `getGeneralStatus` (lines 882-885): bits 7
down to 1 fill the first seven flags in declaration order and bit 0 is
negated into `fifoEmpty`. -/
def decodeGeneralStatus (statusByte : Nat) : GeneralStatus :=
  ⟨bitSet statusByte 7, bitSet statusByte 6, bitSet statusByte 5, bitSet statusByte 4,
    bitSet statusByte 3, bitSet statusByte 2, bitSet statusByte 1, !bitSet statusByte 0⟩

/-- C `isxdigit`. -/
def isHexDigitC (c : Char) : Bool :=
  isDigitC c || ('a' ≤ c && c ≤ 'f') || ('A' ≤ c && c ≤ 'F')

/-- Value of one hexadecimal digit character. -/
def hexDigitVal (c : Char) : Nat :=
  if isDigitC c then c.toNat - 48
  else if 'a' ≤ c && c ≤ 'f' then c.toNat - 87
  else c.toNat - 55

/-- `std::stoi(s, nullptr, 16)`: skip whitespace and an optional sign,
then require at least one hexadecimal digit. -/
def stoi16Model (s : List Char) : Option Nat :=
  let s1 := s.dropWhile isSpaceC
  let ds := s1.takeWhile isHexDigitC
  if ds.isEmpty then none
  else some (ds.foldl (fun a c => a * 16 + hexDigitVal c) 0)

/-- `getGeneralStatus` from the `QG` reply string: parse it as one
hexadecimal byte and decode the bit flags; `none` models the uncaught
`std::stoi` throw on a non-hex reply. -/
def getGeneralStatus (resp : List Char) : Option GeneralStatus :=
  (stoi16Model resp).map decodeGeneralStatus

/-! ## Argument validation vs. clamping (configureAnalogInput, setLayer,
setEngraver)

Each wire function returns the command line handed to `sendCommand`, or
an error when the operation throws before transmitting anything. -/

/-- `clampValue` (lines 22-25) / `ofClamp`. -/
def clampValue (value min max : Int) : Int :=
  if value < min then min else if value > max then max else value

/-- `toStr(bool)` (lines 1486-1488). -/
def boolToStr (b : Bool) : List Char :=
  if b then ['1'] else ['0']

/-- `configureAnalogInput` (lines 415-426): channels outside 0-15 throw
`"Analog channel out of range"` before anything is sent; otherwise the
`AC,channel,enable` line is transmitted. -/
def configureAnalogInputWire (channel : Int) (enable : Bool) :
    Except (List Char) (List Char) :=
  if channel < 0 || channel > 15 then
    Except.error "Analog channel out of range".toList
  else
    Except.ok ("AC,".toList ++ intToString channel ++ ',' :: boolToStr enable)

/-- `setLayer` (lines 1421-1434): an out-of-range layer is CLAMPED into
0-127, never rejected, and the clamped `SL,layer` line is always
transmitted (`none` would mean nothing was sent; that never happens). -/
def setLayerWire (layer : Int) : Option (List Char) :=
  let l := if layer < 0 || layer > 127 then clampValue layer 0 127 else layer
  some ("SL,".toList ++ intToString l)

/-- `setEngraver` (lines 1374-1387): an out-of-range power is CLAMPED into
0-1023, never rejected, and the clamped `SE,enable,power,queue` line is
always transmitted. -/
def setEngraverWire (enable : Bool) (power : Int) (useMotionQueue : Bool) :
    Option (List Char) :=
  let p := if power < 0 || power > 1023 then clampValue power 0 1023 else power
  some ("SE,".toList ++ boolToStr enable ++ ',' :: intToString p ++
    ',' :: boolToStr useMotionQueue)

/-! ## Framing loops (lines 105-279)

Idealized clock: reads and checks are instantaneous, a 1 ms poll sleep
advances the clock by exactly 1 ms, and the fixed 10 ms settle sleep at
line 121 advances it by 10 ms.  `availAt i` is the byte the transport
makes available at the i-th poll, if any.  The fuel argument bounds the
number of loop iterations; `none` means the bound was hit. -/

/-- Outcome of one framing loop: the `std::runtime_error` timeout throw,
or a complete reply, each stamped with the loop-relative time in ms. -/
inductive FrameOut
  | timedOut (elapsedMs : Nat) (accum : List Char)
  | complete (elapsedMs : Nat) (buf : List Char)
deriving DecidableEq

/-- `sleep_for(10ms)` at line 121, taken after the command bytes are
written and before the read loop starts its clock. -/
def sendSettleDelayMs : Nat := 10

/-- The 1 ms poll sleep taken whenever no byte is available. -/
def pollIntervalMs : Nat := 1

/-- The generic OK-scan read loop (lines 246-279): each iteration first
checks `elapsed > timeoutMs`, then either consumes one available byte
(completing once the buffer contains `"OK"`) or sleeps one poll
interval. -/
def okScanLoop (availAt : Nat → Option Char) (timeoutMs : Nat) :
    Nat → Nat → Nat → List Char → Option FrameOut
  | 0, _, _, _ => none
  | fuel + 1, poll, nowMs, buf =>
    if timeoutMs < nowMs then some (FrameOut.timedOut nowMs buf)
    else
      match availAt poll with
      | some c =>
        let buf2 := buf ++ [c]
        if containsOK buf2 then some (FrameOut.complete nowMs buf2)
        else okScanLoop availAt timeoutMs fuel (poll + 1) nowMs buf2
      | none => okScanLoop availAt timeoutMs fuel (poll + 1) (nowMs + 1) buf

/-- The `V` quiet-period read loop (lines 125-160): each iteration first
checks `elapsed > timeoutMs`, then consumes an available byte, or — only
when the buffer is already non-empty and more than 100 ms have passed —
declares the reply complete; otherwise it sleeps one poll interval. -/
def versionLoop (availAt : Nat → Option Char) (timeoutMs : Nat) :
    Nat → Nat → Nat → List Char → Option FrameOut
  | 0, _, _, _ => none
  | fuel + 1, poll, nowMs, buf =>
    if timeoutMs < nowMs then some (FrameOut.timedOut nowMs buf)
    else
      match availAt poll with
      | some c => versionLoop availAt timeoutMs fuel (poll + 1) nowMs (buf ++ [c])
      | none =>
        if !buf.isEmpty && 100 < nowMs then some (FrameOut.complete nowMs buf)
        else versionLoop availAt timeoutMs fuel (poll + 1) (nowMs + 1) buf

/-- A transport that never yields a byte. -/
def silentTransport : Nat → Option Char := fun _ => none

/-- Whether a framing outcome is a completed reply. -/
def isComplete : Option FrameOut → Bool
  | some (FrameOut.complete _ _) => true
  | _ => false

/-- Time from the moment the command bytes were written until the loop
outcome, in idealized ms: the 10 ms settle sleep plus the loop-relative
timestamp. -/
def elapsedAfterSend : Option FrameOut → Option Nat
  | some (FrameOut.timedOut t _) => some (sendSettleDelayMs + t)
  | some (FrameOut.complete t _) => some (sendSettleDelayMs + t)
  | none => none

/-- The generic loop run against a silent transport, with enough fuel to
reach its timeout check one poll past the deadline. -/
def okScanSilent (timeoutMs : Nat) : Option FrameOut :=
  okScanLoop silentTransport timeoutMs (timeoutMs + 2) 0 0 []

/-- The `V` loop run against a silent transport, with enough fuel to
reach its timeout check one poll past the deadline. -/
def versionSilent (timeoutMs : Nat) : Option FrameOut :=
  versionLoop silentTransport timeoutMs (timeoutMs + 2) 0 0 []

/-! ## Helper lemmas: decimal rendering and parsing -/

/-- The ten decimal digit characters. -/
def decDigitChars : List Char :=
  ['0', '1', '2', '3', '4', '5', '6', '7', '8', '9']

theorem digitChr_mem (d : Nat) (h : d < 10) : digitChr d ∈ decDigitChars := by
  interval_cases d <;> decide

theorem digitChr_toNat (d : Nat) (h : d < 10) : (digitChr d).toNat = 48 + d := by
  interval_cases d <;> decide

theorem natDigits_subset (n : Nat) : ∀ c ∈ natDigits n, c ∈ decDigitChars := by
  induction n using Nat.strong_induction_on with
  | _ n ih =>
    rw [natDigits]
    split
    · intro c hc
      rw [List.mem_singleton] at hc
      subst hc
      exact digitChr_mem n (by omega)
    · intro c hc
      rw [List.mem_append] at hc
      rcases hc with hc | hc
      · exact ih (n / 10) (Nat.div_lt_self (by omega) (by omega)) c hc
      · rw [List.mem_singleton] at hc
        subst hc
        exact digitChr_mem (n % 10) (Nat.mod_lt _ (by omega))

theorem natDigits_ne_nil (n : Nat) : natDigits n ≠ [] := by
  rw [natDigits]
  split
  · simp
  · simp

theorem foldl_digits_natDigits (n a : Nat) :
    (natDigits n).foldl (fun acc c => acc * 10 + (c.toNat - 48)) a =
      a * 10 ^ (natDigits n).length + n := by
  induction n using Nat.strong_induction_on with
  | _ n ih =>
    rw [natDigits]
    split
    · rename_i h
      simp [List.foldl, digitChr_toNat n h]
    · rename_i h
      rw [List.foldl_append, ih (n / 10) (Nat.div_lt_self (by omega) (by omega)),
        List.length_append]
      simp only [List.foldl, List.length_singleton]
      rw [digitChr_toNat (n % 10) (Nat.mod_lt _ (by omega))]
      have hdm := Nat.div_add_mod n 10
      calc (a * 10 ^ (natDigits (n / 10)).length + n / 10) * 10 + (48 + n % 10 - 48)
          = a * (10 ^ (natDigits (n / 10)).length * 10) + (10 * (n / 10) + n % 10) := by
            rw [Nat.add_sub_cancel_left]
            ring
        _ = a * 10 ^ ((natDigits (n / 10)).length + 1) + n := by rw [hdm, pow_succ]

theorem strToNat_natDigits (n : Nat) : strToNat (natDigits n) = n := by
  unfold strToNat
  rw [foldl_digits_natDigits]
  simp

theorem takeWhile_all (p : Char → Bool) (l : List Char) (h : ∀ c ∈ l, p c = true) :
    l.takeWhile p = l := by
  induction l with
  | nil => rfl
  | cons a t ih =>
    rw [List.takeWhile_cons, h a (List.mem_cons_self a t)]
    simp only [if_true]
    rw [ih fun c hc => h c (List.mem_cons_of_mem a hc)]

theorem dropWhile_all_not (p : Char → Bool) (l : List Char)
    (h : ∀ c ∈ l, p c = false) : l.dropWhile p = l := by
  cases l with
  | nil => rfl
  | cons a t =>
    rw [List.dropWhile_cons, h a (List.mem_cons_self a t)]
    simp

theorem decDigit_not_space : ∀ c ∈ decDigitChars, isSpaceC c = false := by decide

theorem decDigit_isDigit : ∀ c ∈ decDigitChars, isDigitC c = true := by decide

theorem decDigit_ne_minus : ∀ c ∈ decDigitChars, c ≠ '-' := by decide

theorem decDigit_ne_plus : ∀ c ∈ decDigitChars, c ≠ '+' := by decide

theorem stoiModel_digits (l : List Char) (hne : l ≠ [])
    (h : ∀ c ∈ l, c ∈ decDigitChars) : stoiModel l = some ((strToNat l : Int)) := by
  have hnospace : l.dropWhile isSpaceC = l :=
    dropWhile_all_not _ _ fun c hc => decDigit_not_space c (h c hc)
  have hdigits : l.takeWhile isDigitC = l :=
    takeWhile_all _ _ fun c hc => decDigit_isDigit c (h c hc)
  cases l with
  | nil => exact absurd rfl hne
  | cons a t =>
    have hmem := h a (List.mem_cons_self a t)
    simp only [stoiModel, hnospace]
    rw [if_neg (decDigit_ne_minus a hmem), if_neg (decDigit_ne_plus a hmem), hdigits]
    rfl

theorem stoiModel_neg_digits (ds : List Char) (hne : ds ≠ [])
    (h : ∀ c ∈ ds, c ∈ decDigitChars) :
    stoiModel ('-' :: ds) = some (-(strToNat ds : Int)) := by
  have hds : ds.dropWhile isSpaceC = ds :=
    dropWhile_all_not _ _ fun c hc => decDigit_not_space c (h c hc)
  have hdigits : ds.takeWhile isDigitC = ds :=
    takeWhile_all _ _ fun c hc => decDigit_isDigit c (h c hc)
  have hempty : ds.isEmpty = false := by
    cases ds with
    | nil => exact absurd rfl hne
    | cons a t => rfl
  have hsp : isSpaceC '-' = false := by decide
  have hnospace : ('-' :: ds).dropWhile isSpaceC = '-' :: ds := by
    rw [List.dropWhile_cons, hsp]
    simp
  simp only [stoiModel, hnospace]
  simp [hdigits, hempty]

theorem stoiModel_intToString (i : Int) : stoiModel (intToString i) = some i := by
  cases i with
  | ofNat n =>
    show stoiModel (natDigits n) = some (Int.ofNat n)
    rw [stoiModel_digits (natDigits n) (natDigits_ne_nil n) (natDigits_subset n),
      strToNat_natDigits]
    rfl
  | negSucc m =>
    show stoiModel ('-' :: natDigits (m + 1)) = some (Int.negSucc m)
    rw [stoiModel_neg_digits (natDigits (m + 1)) (natDigits_ne_nil _) (natDigits_subset _),
      strToNat_natDigits]
    simp only [Option.some.injEq, Int.negSucc_eq]
    push_cast
    ring

/-! ## Helper lemmas: the OK marker and splitting -/

theorem dropFromOK_eq_self (l : List Char) (h : ∀ c ∈ l, c ≠ 'O') :
    dropFromOK l = l := by
  induction l with
  | nil => rfl
  | cons a t ih =>
    cases t with
    | nil => rfl
    | cons b u =>
      rw [dropFromOK]
      have ha : a ≠ 'O' := h a (List.mem_cons_self a _)
      rw [if_neg (by simp [ha])]
      rw [ih fun c hc => h c (List.mem_cons_of_mem a hc)]

theorem dropFromOK_append (p s : List Char) (h : ∀ c ∈ p, c ≠ 'O') :
    dropFromOK (p ++ 'O' :: 'K' :: s) = p := by
  induction p with
  | nil =>
    rw [List.nil_append, dropFromOK]
    simp
  | cons a p' ih =>
    have ha : a ≠ 'O' := h a (List.mem_cons_self a _)
    cases p' with
    | nil =>
      rw [List.cons_append, List.nil_append, dropFromOK, if_neg (by simp [ha]),
        dropFromOK]
      simp
    | cons b p'' =>
      rw [List.cons_append, List.cons_append, dropFromOK, if_neg (by simp [ha])]
      have := ih fun c hc => h c (List.mem_cons_of_mem a hc)
      rw [List.cons_append] at this
      rw [this]

theorem stripTrailingCR_eq_self (l : List Char) (h : ∀ c ∈ l, c ≠ '\r') :
    stripTrailingCR l = l := by
  unfold stripTrailingCR
  split
  · rename_i heq
    have : '\r' ∈ l := List.mem_of_mem_getLast? heq
    exact absurd rfl (h _ this)
  · rfl

theorem splitCppAux_no_delim (d : Char) (acc B : List Char)
    (hB : ∀ c ∈ B, c ≠ d) :
    splitCppAux d acc B = [stripTrailingCR (acc.reverse ++ B)] := by
  induction B generalizing acc with
  | nil => simp [splitCppAux]
  | cons c cs ih =>
    rw [splitCppAux, if_neg (hB c (List.mem_cons_self c cs))]
    rw [ih (c :: acc) fun x hx => hB x (List.mem_cons_of_mem c hx)]
    simp

theorem splitCppAux_delim (d : Char) (acc A B : List Char) (hBne : B ≠ [])
    (hA : ∀ c ∈ A, c ≠ d) (hB : ∀ c ∈ B, c ≠ d) :
    splitCppAux d acc (A ++ d :: B) =
      [stripTrailingCR (acc.reverse ++ A), stripTrailingCR B] := by
  induction A generalizing acc with
  | nil =>
    cases B with
    | nil => exact absurd rfl hBne
    | cons b bs =>
      rw [List.nil_append, splitCppAux, if_pos rfl]
      rw [show (b :: bs).isEmpty = false from rfl]
      rw [splitCppAux_no_delim d [] (b :: bs) hB]
      simp
  | cons a t ih =>
    rw [List.cons_append, splitCppAux, if_neg (hA a (List.mem_cons_self a t))]
    rw [ih (a :: acc) fun x hx => hA x (List.mem_cons_of_mem a hx)]
    simp

theorem splitCpp_pair (A B : List Char) (hBne : B ≠ [])
    (hA : ∀ c ∈ A, c ≠ ',') (hB : ∀ c ∈ B, c ≠ ',')
    (hAcr : stripTrailingCR A = A) (hBcr : stripTrailingCR B = B) :
    splitCpp ',' (A ++ ',' :: B) = [A, B] := by
  have key := splitCppAux_delim ',' [] A B hBne hA hB
  rw [List.reverse_nil, List.nil_append] at key
  cases hAB : A ++ ',' :: B with
  | nil => exact absurd hAB (by simp)
  | cons c cs =>
    rw [splitCpp, ← hAB, key, hAcr, hBcr]

theorem decDigit_qs_facts :
    ∀ c ∈ decDigitChars,
      isQsKeep c = true ∧ c ≠ 'O' ∧ c ≠ ',' ∧ c ≠ '\r' := by decide

theorem intToString_ne_nil (i : Int) : intToString i ≠ [] := by
  cases i with
  | ofNat n => exact natDigits_ne_nil n
  | negSucc m => simp [intToString]

theorem intToString_qs_facts (i : Int) :
    ∀ c ∈ intToString i, isQsKeep c = true ∧ c ≠ 'O' ∧ c ≠ ',' ∧ c ≠ '\r' := by
  intro c hc
  have hmem : c ∈ decDigitChars ∨ c = '-' := by
    cases i with
    | ofNat n => exact Or.inl (natDigits_subset n c hc)
    | negSucc m =>
      rw [intToString, List.mem_cons] at hc
      rcases hc with rfl | hc
      · exact Or.inr rfl
      · exact Or.inl (natDigits_subset _ c hc)
  rcases hmem with hmem | rfl
  · exact decDigit_qs_facts c hmem
  · refine ⟨by decide, by decide, by decide, by decide⟩

/-- A synthetic step-position reply of the form `a,bOK`. -/
def qsReply (a b : Int) : List Char :=
  (intToString a ++ ',' :: intToString b) ++ 'O' :: 'K' :: []

theorem getStepPositions_qsReply (a b : Int) :
    getStepPositions (Except.ok (qsReply a b)) = (a, b) := by
  have hfa := intToString_qs_facts a
  have hfb := intToString_qs_facts b
  have hpayload : ∀ c ∈ intToString a ++ ',' :: intToString b,
      isQsKeep c = true ∧ c ≠ 'O' ∧ c ≠ '\r' := by
    intro c hc
    rw [List.mem_append, List.mem_cons] at hc
    rcases hc with hc | rfl | hc
    · exact ⟨(hfa c hc).1, (hfa c hc).2.1, (hfa c hc).2.2.2⟩
    · exact ⟨by decide, by decide, by decide⟩
    · exact ⟨(hfb c hc).1, (hfb c hc).2.1, (hfb c hc).2.2.2⟩
  have hdrop1 : dropFromOK (qsReply a b) = intToString a ++ ',' :: intToString b :=
    dropFromOK_append _ _ fun c hc => (hpayload c hc).2.1
  have hfilter : (intToString a ++ ',' :: intToString b).filter isQsKeep =
      intToString a ++ ',' :: intToString b :=
    List.filter_eq_self.mpr fun c hc => (hpayload c hc).1
  have hdrop2 : dropFromOK (intToString a ++ ',' :: intToString b) =
      intToString a ++ ',' :: intToString b :=
    dropFromOK_eq_self _ fun c hc => (hpayload c hc).2.1
  have hsplit : splitCpp ',' (intToString a ++ ',' :: intToString b) =
      [intToString a, intToString b] :=
    splitCpp_pair _ _ (intToString_ne_nil b)
      (fun c hc => (hfa c hc).2.2.1) (fun c hc => (hfb c hc).2.2.1)
      (stripTrailingCR_eq_self _ fun c hc => (hfa c hc).2.2.2)
      (stripTrailingCR_eq_self _ fun c hc => (hfb c hc).2.2.2)
  simp only [getStepPositions, sendCommandQS, hdrop1, hfilter, hdrop2, hsplit,
    stoiModel_intToString]

/-- Claim C6: decoding a step-position reply of the form `a,bOK` recovers
exactly the pair `(a, b)` for every pair of decimal integers, and in
particular `"0,0OK"` decodes to `(0, 0)` and `"-150,300OK"` decodes to
`(-150, 300)`. -/
theorem qs_reply_roundTrip :
    (∀ a b : Int, getStepPositions (Except.ok (qsReply a b)) = (a, b)) ∧
      getStepPositions (Except.ok "0,0OK".toList) = (0, 0) ∧
      getStepPositions (Except.ok "-150,300OK".toList) = (-150, 300) :=
  ⟨getStepPositions_qsReply, by decide, by decide⟩

/-- Claim C10: `isPenDown` returns false for every possible device reply:
the `QP` branch of `sendCommand` reduces the raw response to the single
character `"0"` or `"1"`, and `isPenDown` additionally requires the
substring `"OK"` in that reduced string before returning true, which can
never hold, so the pen is always reported as up. -/
theorem isPenDown_always_false : ∀ r : Reply, isPenDown r = false := by
  intro r
  cases r with
  | error e => rfl
  | ok buf =>
    simp only [isPenDown, sendCommandQP]
    split <;> rfl

theorem bitSet_testBit (n i : Nat) : bitSet n i = n.testBit i := by
  unfold bitSet
  rw [Nat.one_shiftLeft, Nat.and_two_pow]
  cases h : n.testBit i <;> simp

/-- Claim C5: `getGeneralStatus` decodes the two-hex-digit status byte
bitwise into the eight named flags, bit 0 negated into `fifoEmpty` and
bits 1-7 mapped directly to `motor2`, `motor1`, `executing`, `penDown`,
`buttonPrg`, `pinRB2`, `pinRB5`; a byte of `0x00` yields `fifoEmpty =
true` and all other flags false, and `0x01` yields `fifoEmpty = false`. -/
theorem getGeneralStatus_bit_decode :
    (∀ b : Nat,
      (decodeGeneralStatus b).fifoEmpty = !b.testBit 0 ∧
        (decodeGeneralStatus b).motor2 = b.testBit 1 ∧
        (decodeGeneralStatus b).motor1 = b.testBit 2 ∧
        (decodeGeneralStatus b).executing = b.testBit 3 ∧
        (decodeGeneralStatus b).penDown = b.testBit 4 ∧
        (decodeGeneralStatus b).buttonPrg = b.testBit 5 ∧
        (decodeGeneralStatus b).pinRB2 = b.testBit 6 ∧
        (decodeGeneralStatus b).pinRB5 = b.testBit 7) ∧
      getGeneralStatus "00".toList =
        some ⟨false, false, false, false, false, false, false, true⟩ ∧
      getGeneralStatus "01".toList =
        some ⟨false, false, false, false, false, false, false, false⟩ := by
  refine ⟨fun b => ?_, by decide, by decide⟩
  simp [decodeGeneralStatus, bitSet_testBit]

/-- Claim C2: the source contradicts its own comment "this implementation
uses the last known values set with enableMotors()" — `enableMotors`
writes the `getLastKnownMotorConfig()` static while `getMotorConfig`
reads a distinct local static, so after `enableMotors(5, 5)` a
`getMotorConfig` observing both motors moving still returns the untouched
default `(MOTOR_STEP_DIV16, MOTOR_STEP_DIV16) = (1, 1)`, not `(5, 5)`. -/
theorem getMotorConfig_ignores_enableMotors :
    (getMotorConfig (Except.ok "QM,0,1,1,0".toList) (enableMotors 5 5 initState)).2 =
        (MOTOR_STEP_DIV16, MOTOR_STEP_DIV16) ∧
      ((getMotorConfig (Except.ok "QM,0,1,1,0".toList)
          (enableMotors 5 5 initState)).2 == ((5 : Int), (5 : Int))) = false := by
  exact ⟨by decide, by decide⟩

/-- Claim C3 counterexample: `enableMotors(99, 7)` stores the raw pair
`(99, 7)` into the last-known motor-configuration cache even though
neither value is an enumerated microstep mode. -/
theorem enableMotors_stores_invalid_mode_cex :
    (enableMotors 99 7 initState).emCache = (99, 7) ∧
      validMode 99 = false ∧ validMode 7 = false := by
  exact ⟨by decide, by decide, by decide⟩

theorem cacheInv_step (s : EbbState) (a : EbbAction) (hs : cacheInv s = true)
    (ha : validAction a = true) : cacheInv (ebbStep s a) = true := by
  cases a with
  | enable m1 m2 =>
    simp only [cacheInv, Bool.and_eq_true] at hs ⊢
    simp only [validAction, Bool.and_eq_true] at ha
    exact ⟨⟨⟨ha.1, ha.2⟩, hs.1.2⟩, hs.2⟩
  | query r =>
    cases r with
    | error e => exact hs
    | ok buf =>
      simp only [cacheInv, Bool.and_eq_true] at hs ⊢
      simp only [ebbStep, getMotorConfig]
      split
      · simp only [cacheInv, Bool.and_eq_true]
        refine ⟨⟨⟨hs.1.1.1, hs.1.1.2⟩, ?_⟩, ?_⟩
        · split
          · exact hs.1.2
          · decide
        · split
          · exact hs.2
          · decide
      · exact ⟨⟨⟨hs.1.1.1, hs.1.1.2⟩, hs.1.2⟩, hs.2⟩

theorem cacheInv_foldl (acts : List EbbAction) :
    ∀ s : EbbState, cacheInv s = true → (∀ a ∈ acts, validAction a = true) →
      cacheInv (acts.foldl ebbStep s) = true := by
  induction acts with
  | nil => intro s hs _; exact hs
  | cons a t ih =>
    intro s hs h
    rw [List.foldl_cons]
    exact ih (ebbStep s a) (cacheInv_step s a hs (h a (List.mem_cons_self a t)))
      fun x hx => h x (List.mem_cons_of_mem a hx)

/-- Claim C3 (amended): provided every `enableMotors` call passes modes in
the enumerated range 0-5, both slots of both motor-configuration caches
hold one of the six enumerated microstep modes at every point of any
sequence of operations; `enableMotors` itself performs no validation, so
the invariant fails for out-of-range arguments. -/
theorem cacheInv_preserved (acts : List EbbAction)
    (h : ∀ a ∈ acts, validAction a = true) :
    cacheInv (acts.foldl ebbStep initState) = true :=
  cacheInv_foldl acts initState (by decide) h

/-- Witness for the amended Claim C3 at a concrete action sequence. -/
theorem cacheInv_preserved_witness :
    (∀ a ∈ [EbbAction.enable 5 0,
        EbbAction.query (Except.ok "QM,0,0,1,0".toList)], validAction a = true) ∧
      cacheInv ([EbbAction.enable 5 0,
        EbbAction.query (Except.ok "QM,0,0,1,0".toList)].foldl ebbStep initState) = true :=
  ⟨by decide, cacheInv_preserved _ (by decide)⟩

theorem qmCache_narrow_only (r : Reply) (s : EbbState) :
    (s.qmCache.1 = MOTOR_DISABLE → ((getMotorConfig r s).1).qmCache.1 = MOTOR_DISABLE) ∧
      (s.qmCache.2 = MOTOR_DISABLE → ((getMotorConfig r s).1).qmCache.2 = MOTOR_DISABLE) := by
  cases r with
  | error e => exact ⟨fun h => h, fun h => h⟩
  | ok buf =>
    simp only [getMotorConfig]
    split
    · constructor
      · intro h
        simp only
        split
        · exact h
        · rfl
      · intro h
        simp only
        split
        · exact h
        · rfl
    · exact ⟨fun h => h, fun h => h⟩

/-- Claim C7: once a motion-status observation has narrowed a cache slot
to the disabled mode, no subsequent sequence of `getMotorConfig`
observations re-enables it, regardless of the motor-active flags
observed. -/
theorem disabled_slot_stays_disabled (s : EbbState) (replies : List Reply) :
    (s.qmCache.1 = MOTOR_DISABLE →
        ((replies.foldl (fun st r => (getMotorConfig r st).1) s).qmCache.1 = MOTOR_DISABLE)) ∧
      (s.qmCache.2 = MOTOR_DISABLE →
        ((replies.foldl (fun st r => (getMotorConfig r st).1) s).qmCache.2 = MOTOR_DISABLE)) := by
  induction replies generalizing s with
  | nil => exact ⟨fun h => h, fun h => h⟩
  | cons r t ih =>
    rw [List.foldl_cons]
    constructor
    · intro h
      exact (ih ((getMotorConfig r s).1)).1 ((qmCache_narrow_only r s).1 h)
    · intro h
      exact (ih ((getMotorConfig r s).1)).2 ((qmCache_narrow_only r s).2 h)

/-- Witness for Claim C7: a state with both slots narrowed to disabled
stays disabled across an observation that reports both motors moving. -/
theorem disabled_slot_stays_disabled_witness :
    (⟨(1, 1), (0, 0)⟩ : EbbState).qmCache.1 = MOTOR_DISABLE ∧
      (([Except.ok "QM,0,1,1,0".toList] : List Reply).foldl
          (fun st r => (getMotorConfig r st).1) ⟨(1, 1), (0, 0)⟩).qmCache.1 = MOTOR_DISABLE :=
  ⟨by decide, (disabled_slot_stays_disabled ⟨(1, 1), (0, 0)⟩ _).1 (by decide)⟩

/-! ## Helper lemmas: characters surviving the cleanup pipeline come from
the raw reply, and digit-free tokens never parse -/

theorem dropWhile_subset (p : Char → Bool) (l : List Char) :
    ∀ c ∈ l.dropWhile p, c ∈ l := by
  induction l with
  | nil => intro c hc; exact hc
  | cons a t ih =>
    intro c hc
    rw [List.dropWhile_cons] at hc
    split at hc
    · exact List.mem_cons_of_mem a (ih c hc)
    · exact hc

theorem dropFromOK_subset (l : List Char) : ∀ c ∈ dropFromOK l, c ∈ l := by
  induction l with
  | nil => intro c hc; exact hc
  | cons a t ih =>
    cases t with
    | nil => intro c hc; exact hc
    | cons b u =>
      intro c hc
      rw [dropFromOK] at hc
      split at hc
      · exact absurd hc (List.not_mem_nil c)
      · rcases List.mem_cons.mp hc with rfl | hc
        · exact List.mem_cons_self _ _
        · exact List.mem_cons_of_mem a (ih c hc)

theorem stripTrailingCR_subset (l : List Char) : ∀ c ∈ stripTrailingCR l, c ∈ l := by
  intro c hc
  unfold stripTrailingCR at hc
  split at hc
  · exact List.mem_of_mem_dropLast hc
  · exact hc

theorem splitCppAux_subset (d : Char) :
    ∀ l acc tok : List Char, tok ∈ splitCppAux d acc l →
      ∀ c ∈ tok, c ∈ acc ∨ c ∈ l := by
  intro l
  induction l with
  | nil =>
    intro acc tok htok c hc
    rw [splitCppAux, List.mem_singleton] at htok
    subst htok
    exact Or.inl (List.mem_reverse.mp (stripTrailingCR_subset _ c hc))
  | cons c0 cs ih =>
    intro acc tok htok c hc
    rw [splitCppAux] at htok
    by_cases h0 : c0 = d
    · rw [if_pos h0] at htok
      by_cases he : cs.isEmpty = true
      · rw [if_pos he, List.mem_singleton] at htok
        subst htok
        exact Or.inl (List.mem_reverse.mp (stripTrailingCR_subset _ c hc))
      · rw [if_neg he] at htok
        rcases List.mem_cons.mp htok with rfl | htok
        · exact Or.inl (List.mem_reverse.mp (stripTrailingCR_subset _ c hc))
        · rcases ih [] tok htok c hc with hin | hin
          · exact absurd hin (List.not_mem_nil c)
          · exact Or.inr (List.mem_cons_of_mem c0 hin)
    · rw [if_neg h0] at htok
      rcases ih (c0 :: acc) tok htok c hc with hin | hin
      · rcases List.mem_cons.mp hin with rfl | hin
        · exact Or.inr (List.mem_cons_self _ _)
        · exact Or.inl hin
      · exact Or.inr (List.mem_cons_of_mem c0 hin)

theorem splitCpp_subset (d : Char) (l tok : List Char) (htok : tok ∈ splitCpp d l) :
    ∀ c ∈ tok, c ∈ l := by
  intro c hc
  cases l with
  | nil => exact absurd htok (List.not_mem_nil tok)
  | cons a t =>
    rcases splitCppAux_subset d (a :: t) [] tok htok c hc with hin | hin
    · exact absurd hin (List.not_mem_nil c)
    · exact hin

theorem takeWhile_nil_of_none (p : Char → Bool) (l : List Char)
    (h : ∀ c ∈ l, p c = false) : l.takeWhile p = [] := by
  cases l with
  | nil => rfl
  | cons a t =>
    rw [List.takeWhile_cons, h a (List.mem_cons_self a t)]
    simp

theorem filter_nil_of_none (p : Char → Bool) (l : List Char)
    (h : ∀ c ∈ l, p c = false) : l.filter p = [] := by
  induction l with
  | nil => rfl
  | cons a t ih =>
    rw [List.filter_cons, h a (List.mem_cons_self a t)]
    simp only [Bool.false_eq_true, if_false]
    exact ih fun c hc => h c (List.mem_cons_of_mem a hc)

theorem stoiModel_none_of_no_digit (l : List Char)
    (h : ∀ c ∈ l, isDigitC c = false) : stoiModel l = none := by
  have hsub : ∀ c ∈ l.dropWhile isSpaceC, isDigitC c = false :=
    fun c hc => h c (dropWhile_subset _ _ c hc)
  cases hdw : l.dropWhile isSpaceC with
  | nil => simp [stoiModel, hdw]
  | cons c rest =>
    rw [hdw] at hsub
    have htr : rest.takeWhile isDigitC = [] :=
      takeWhile_nil_of_none _ _ fun x hx => hsub x (List.mem_cons_of_mem c hx)
    have htc : (c :: rest).takeWhile isDigitC = [] :=
      takeWhile_nil_of_none _ _ hsub
    simp only [stoiModel, hdw, htr, htc]
    split
    · rfl
    · split <;> rfl

/-! ## Decode failures yield the documented defaults -/

theorem getStepPositions_no_digit (buf : List Char)
    (h : ∀ c ∈ buf, isDigitC c = false) :
    getStepPositions (Except.ok buf) = (0, 0) := by
  simp only [getStepPositions, sendCommandQS]
  have hsub : ∀ c ∈ (dropFromOK ((dropFromOK buf).filter isQsKeep)).filter isQsKeep,
      c ∈ buf := by
    intro c hc
    exact dropFromOK_subset _ c
      (List.mem_of_mem_filter (dropFromOK_subset _ c (List.mem_of_mem_filter hc)))
  cases hs : splitCpp ','
      ((dropFromOK ((dropFromOK buf).filter isQsKeep)).filter isQsKeep) with
  | nil => rfl
  | cons v0 vs =>
    cases vs with
    | nil => rfl
    | cons v1 vs2 =>
      have hv0 : stoiModel v0 = none :=
        stoiModel_none_of_no_digit v0 fun c hc =>
          h c (hsub c (splitCpp_subset ',' _ v0
            (by rw [hs]; exact List.mem_cons_self _ _) c hc))
      change (match stoiModel v0, stoiModel v1 with
        | some a, some b => (a, b)
        | _, _ => ((0 : Int), (0 : Int))) = (0, 0)
      rw [hv0]

theorem getCurrentInfo_no_digit (oldBoard : Bool) (buf : List Char)
    (h : ∀ c ∈ buf, isDigitC c = false) :
    getCurrentInfo oldBoard (Except.ok buf) = (0, 0) := by
  simp only [getCurrentInfo, sendCommandQC]
  have hsub : ∀ c ∈ (dropFromOK ((dropFromOK buf).filter isQcKeep)).filter isQcKeep,
      c ∈ buf := by
    intro c hc
    exact dropFromOK_subset _ c
      (List.mem_of_mem_filter (dropFromOK_subset _ c (List.mem_of_mem_filter hc)))
  cases hs : splitCpp ','
      ((dropFromOK ((dropFromOK buf).filter isQcKeep)).filter isQcKeep) with
  | nil => rfl
  | cons v0 vs =>
    cases vs with
    | nil => rfl
    | cons v1 vs2 =>
      have hv0 : stoiModel v0 = none :=
        stoiModel_none_of_no_digit v0 fun c hc =>
          h c (hsub c (splitCpp_subset ',' _ v0
            (by rw [hs]; exact List.mem_cons_self _ _) c hc))
      change (match stoiModel v0, stoiModel v1 with
        | some a, some b =>
          let ra0 : ℚ := (33 / 10) * a / 1023
          let vp : ℚ := (33 / 10) * b / 1023
          let scale : ℚ := if oldBoard then 1 / 11 else 1 / (92 / 10)
          (ra0 / (176 / 100), vp / scale + 3 / 10)
        | _, _ => (0, 0)) = ((0 : ℚ), (0 : ℚ))
      rw [hv0]

theorem getLayer_no_digit (buf : List Char)
    (h : ∀ c ∈ buf, isDigitC c = false) :
    getLayer (Except.ok buf) = 0 := by
  simp only [getLayer, sendCommandGeneric]
  by_cases hok : containsOK buf = true
  · rw [if_pos hok]
    rfl
  · rw [if_neg hok]
    rw [filter_nil_of_none isDigitC (dropFromOK buf)
      fun c hc => h c (dropFromOK_subset _ c hc)]
    rfl

theorem getNodeCount_no_digit (buf : List Char)
    (h : ∀ c ∈ buf, isDigitC c = false) :
    getNodeCount (Except.ok buf) = 0 := by
  simp only [getNodeCount, sendCommandQN]
  rw [filter_nil_of_none isDigitC (dropFromOK buf)
    fun c hc => h c (dropFromOK_subset _ c hc)]
  rfl

theorem emergencyStop_no_digit (buf : List Char)
    (h : ∀ c ∈ buf, isDigitC c = false) :
    emergencyStop (Except.ok buf) = ⟨false, (0, 0), (0, 0)⟩ := by
  simp only [emergencyStop, sendCommandGeneric]
  by_cases hok : containsOK buf = true
  · rw [if_pos hok]
    rfl
  · rw [if_neg hok]
    have hsub : ∀ c ∈ (dropFromOK buf).filter isQsKeep, c ∈ buf :=
      fun c hc => dropFromOK_subset _ c (List.mem_of_mem_filter hc)
    cases hs : splitCpp ',' ((dropFromOK buf).filter isQsKeep) with
    | nil => rfl
    | cons v0 t0 =>
      cases t0 with
      | nil => rfl
      | cons v1 t1 =>
        cases t1 with
        | nil => rfl
        | cons v2 t2 =>
          cases t2 with
          | nil => rfl
          | cons v3 t3 =>
            cases t3 with
            | nil => rfl
            | cons v4 t4 =>
              have hv1 : stoiModel v1 = none :=
                stoiModel_none_of_no_digit v1 fun c hc =>
                  h c (hsub c (splitCpp_subset ',' _ v1
                    (by rw [hs]; exact List.mem_cons_of_mem v0 (List.mem_cons_self _ _))
                    c hc))
              change (match stoiModel v1, stoiModel v2, stoiModel v3, stoiModel v4 with
                | some f1, some f2, some r1, some r2 =>
                  (⟨v0 == ['1'], (f1, f2), (r1, r2)⟩ : StopInfo)
                | _, _, _, _ => (⟨false, (0, 0), (0, 0)⟩ : StopInfo)) =
                  ⟨false, (0, 0), (0, 0)⟩
              rw [hv1]

theorem getNickname_empty_payload (buf : List Char)
    (h : ∀ c ∈ dropFromOK buf, c = '\r' ∨ c = '\n') :
    getNickname (Except.ok buf) = "EBB Controller".toList := by
  have h1 : (dropFromOK buf).filter (fun c => !(c = '\r' || c = '\n')) = [] := by
    refine filter_nil_of_none _ _ fun c hc => ?_
    rcases h c hc with rfl | rfl <;> rfl
  simp only [getNickname, sendCommandQT, h1]
  decide

/-- Claim C1 counterexample: every listed query operation substitutes its
fixed default when the exchange throws (and `getStepPositions` also does
so on an undecodable reply), instead of surfacing a typed failure. -/
theorem facade_defaults_on_failure_cex :
    getStepPositions (Except.error CommErr.timeout) = (0, 0) ∧
      getCurrentInfo false (Except.error CommErr.timeout) = (0, 0) ∧
      getLayer (Except.error CommErr.timeout) = 0 ∧
      getNodeCount (Except.error CommErr.timeout) = 0 ∧
      getNickname (Except.error CommErr.timeout) = "EBB Controller".toList ∧
      emergencyStop (Except.error CommErr.timeout) = ⟨false, (0, 0), (0, 0)⟩ ∧
      getStepPositions (Except.ok "XY".toList) = (0, 0) :=
  ⟨rfl, rfl, rfl, rfl, by decide, rfl, by decide⟩

/-- Claim C1 (amended): the step-position, current/voltage, layer,
node-count, nickname and emergency-stop query operations never surface a
failure: every communication error makes each operation return its fixed
default result (`(0,0)`, `(0.0,0.0)`, `0`, `0`, `"EBB Controller"`, an
all-zero `StopInfo`); every undecodable reply carrying no decimal digit
makes each of the five numeric queries return its default; and every
reply whose payload before the `"OK"` marker holds only line terminators
makes the nickname query return the placeholder. -/
theorem facade_default_substitution :
    (∀ e : CommErr,
        getStepPositions (Except.error e) = (0, 0) ∧
          getCurrentInfo false (Except.error e) = (0, 0) ∧
          getCurrentInfo true (Except.error e) = (0, 0) ∧
          getLayer (Except.error e) = 0 ∧
          getNodeCount (Except.error e) = 0 ∧
          getNickname (Except.error e) = "EBB Controller".toList ∧
          emergencyStop (Except.error e) = ⟨false, (0, 0), (0, 0)⟩) ∧
      (∀ buf : List Char, (∀ c ∈ buf, isDigitC c = false) →
        getStepPositions (Except.ok buf) = (0, 0) ∧
          getCurrentInfo false (Except.ok buf) = (0, 0) ∧
          getCurrentInfo true (Except.ok buf) = (0, 0) ∧
          getLayer (Except.ok buf) = 0 ∧
          getNodeCount (Except.ok buf) = 0 ∧
          emergencyStop (Except.ok buf) = ⟨false, (0, 0), (0, 0)⟩) ∧
      (∀ buf : List Char, (∀ c ∈ dropFromOK buf, c = '\r' ∨ c = '\n') →
        getNickname (Except.ok buf) = "EBB Controller".toList) :=
  ⟨fun _ => ⟨rfl, rfl, rfl, rfl, rfl, rfl, rfl⟩,
    fun buf h =>
      ⟨getStepPositions_no_digit buf h, getCurrentInfo_no_digit false buf h,
        getCurrentInfo_no_digit true buf h, getLayer_no_digit buf h,
        getNodeCount_no_digit buf h, emergencyStop_no_digit buf h⟩,
    getNickname_empty_payload⟩

/-- Witness for the amended Claim C1 at concrete undecodable replies. -/
theorem facade_default_substitution_witness :
    (∀ c ∈ "XY,NO".toList, isDigitC c = false) ∧
      getStepPositions (Except.ok "XY,NO".toList) = (0, 0) ∧
      getCurrentInfo false (Except.ok "XY,NO".toList) = (0, 0) ∧
      getLayer (Except.ok "XY,NO".toList) = 0 ∧
      getNodeCount (Except.ok "XY,NO".toList) = 0 ∧
      emergencyStop (Except.ok "XY,NO".toList) = ⟨false, (0, 0), (0, 0)⟩ ∧
      (∀ c ∈ dropFromOK "\r\nOK".toList, c = '\r' ∨ c = '\n') ∧
      getNickname (Except.ok "\r\nOK".toList) = "EBB Controller".toList :=
  ⟨by decide,
    (facade_default_substitution.2.1 "XY,NO".toList (by decide)).1,
    (facade_default_substitution.2.1 "XY,NO".toList (by decide)).2.1,
    (facade_default_substitution.2.1 "XY,NO".toList (by decide)).2.2.2.1,
    (facade_default_substitution.2.1 "XY,NO".toList (by decide)).2.2.2.2.1,
    (facade_default_substitution.2.1 "XY,NO".toList (by decide)).2.2.2.2.2,
    by decide,
    facade_default_substitution.2.2 "\r\nOK".toList (by decide)⟩

/-- Claim C4 counterexample: `setLayer(200)` and `setEngraver` with power
2000 do not fail with a range error; they clamp and transmit the clamped
command line. -/
theorem setLayer_clamps_cex :
    setLayerWire 200 = some "SL,127".toList ∧
      setEngraverWire true 2000 false = some "SE,1,1023,0".toList := by
  have h127 : natDigits 127 = ['1', '2', '7'] := by
    rw [natDigits]
    norm_num
    rw [natDigits]
    norm_num
    rw [natDigits]
    norm_num
    decide
  have h1023 : natDigits 1023 = ['1', '0', '2', '3'] := by
    rw [natDigits]
    norm_num
    rw [natDigits]
    norm_num
    rw [natDigits]
    norm_num
    rw [natDigits]
    norm_num
    decide
  constructor
  · show (let l := if (200 : Int) < 0 || (200 : Int) > 127 then clampValue 200 0 127 else 200
      some ("SL,".toList ++ intToString l)) = some "SL,127".toList
    norm_num [clampValue, intToString, h127]
  · show (let p := if (2000 : Int) < 0 || (2000 : Int) > 1023 then clampValue 2000 0 1023 else 2000
      some ("SE,".toList ++ boolToStr true ++ ',' :: intToString p ++
        ',' :: boolToStr false)) = some "SE,1,1023,0".toList
    norm_num [clampValue, intToString, boolToStr, h1023]

theorem setLayerWire_clamp_high (l : Int) (hl : 127 < l) :
    setLayerWire l = setLayerWire 127 := by
  have hcond : (decide (l < 0) || decide (l > 127)) = true := by
    simp only [Bool.or_eq_true, decide_eq_true_eq]
    exact Or.inr hl
  have hclamp : clampValue l 0 127 = 127 := by
    unfold clampValue
    rw [if_neg (by omega), if_pos (by omega)]
  simp only [setLayerWire, hcond, if_true, hclamp]
  norm_num

theorem setLayerWire_clamp_low (l : Int) (hl : l < 0) :
    setLayerWire l = setLayerWire 0 := by
  have hcond : (decide (l < 0) || decide (l > 127)) = true := by
    simp only [Bool.or_eq_true, decide_eq_true_eq]
    exact Or.inl hl
  have hclamp : clampValue l 0 127 = 0 := by
    unfold clampValue
    rw [if_pos (by omega)]
  simp only [setLayerWire, hcond, if_true, hclamp]
  norm_num

theorem setEngraverWire_clamp_high (en : Bool) (p : Int) (q : Bool) (hp : 1023 < p) :
    setEngraverWire en p q = setEngraverWire en 1023 q := by
  have hcond : (decide (p < 0) || decide (p > 1023)) = true := by
    simp only [Bool.or_eq_true, decide_eq_true_eq]
    exact Or.inr hp
  have hclamp : clampValue p 0 1023 = 1023 := by
    unfold clampValue
    rw [if_neg (by omega), if_pos (by omega)]
  simp only [setEngraverWire, hcond, if_true, hclamp]
  norm_num

theorem setEngraverWire_clamp_low (en : Bool) (p : Int) (q : Bool) (hp : p < 0) :
    setEngraverWire en p q = setEngraverWire en 0 q := by
  have hcond : (decide (p < 0) || decide (p > 1023)) = true := by
    simp only [Bool.or_eq_true, decide_eq_true_eq]
    exact Or.inl hp
  have hclamp : clampValue p 0 1023 = 0 := by
    unfold clampValue
    rw [if_pos (by omega)]
  simp only [setEngraverWire, hcond, if_true, hclamp]
  norm_num

theorem configureAnalogInputWire_reject (ch : Int) (en : Bool)
    (h : ch < 0 ∨ 15 < ch) :
    configureAnalogInputWire ch en = Except.error "Analog channel out of range".toList := by
  have hcond : (decide (ch < 0) || decide (ch > 15)) = true := by
    simp only [Bool.or_eq_true, decide_eq_true_eq]
    exact h
  simp only [configureAnalogInputWire, hcond, if_true]

/-- Claim C4 (amended): `configureAnalogInput` rejects out-of-range
channels before transmitting anything (channel 16 fails, channel 15
transmits), but `setLayer` and `setEngraver` never reject: an
out-of-range layer or power is clamped to the nearest bound and the
clamped command is transmitted. -/
theorem range_validation_vs_clamp :
    (∀ ch : Int, ∀ en : Bool, ch < 0 ∨ 15 < ch →
        configureAnalogInputWire ch en =
          Except.error "Analog channel out of range".toList) ∧
      configureAnalogInputWire 16 true =
        Except.error "Analog channel out of range".toList ∧
      configureAnalogInputWire 15 true = Except.ok "AC,15,1".toList ∧
      (∀ l : Int, 127 < l → setLayerWire l = setLayerWire 127) ∧
      (∀ l : Int, l < 0 → setLayerWire l = setLayerWire 0) ∧
      (∀ p : Int, ∀ en q : Bool, 1023 < p → setEngraverWire en p q = setEngraverWire en 1023 q) ∧
      (∀ p : Int, ∀ en q : Bool, p < 0 → setEngraverWire en p q = setEngraverWire en 0 q) := by
  refine ⟨configureAnalogInputWire_reject, ?_, ?_, setLayerWire_clamp_high,
    setLayerWire_clamp_low, fun p en q hp => setEngraverWire_clamp_high en p q hp,
    fun p en q hp => setEngraverWire_clamp_low en p q hp⟩
  · exact configureAnalogInputWire_reject 16 true (Or.inr (by norm_num))
  · have h15 : natDigits 15 = ['1', '5'] := by
      rw [natDigits]
      norm_num
      rw [natDigits]
      norm_num
      decide
    show (if (15 : Int) < 0 || (15 : Int) > 15 then
        Except.error "Analog channel out of range".toList
      else Except.ok ("AC,".toList ++ intToString 15 ++ ',' :: boolToStr true)) =
        Except.ok "AC,15,1".toList
    norm_num [intToString, boolToStr, h15]

/-- Witness for the amended Claim C4 at concrete out-of-range inputs. -/
theorem range_validation_vs_clamp_witness :
    configureAnalogInputWire 20 false =
        Except.error "Analog channel out of range".toList ∧
      setLayerWire 200 = setLayerWire 127 ∧
      setLayerWire (-3) = setLayerWire 0 ∧
      setEngraverWire true 2000 false = setEngraverWire true 1023 false ∧
      setEngraverWire false (-1) true = setEngraverWire false 0 true :=
  ⟨range_validation_vs_clamp.1 20 false (Or.inr (by norm_num)),
    range_validation_vs_clamp.2.2.2.1 200 (by norm_num),
    range_validation_vs_clamp.2.2.2.2.1 (-3) (by norm_num),
    range_validation_vs_clamp.2.2.2.2.2.1 2000 true false (by norm_num),
    range_validation_vs_clamp.2.2.2.2.2.2 (-1) false true (by norm_num)⟩

theorem okScanLoop_silent_eq (timeoutMs : Nat) :
    ∀ fuel nowMs poll buf, nowMs + fuel = timeoutMs + 2 → nowMs ≤ timeoutMs + 1 →
      okScanLoop silentTransport timeoutMs fuel poll nowMs buf =
        some (FrameOut.timedOut (timeoutMs + 1) buf) := by
  intro fuel
  induction fuel with
  | zero =>
    intro nowMs poll buf h1 h2
    omega
  | succ k ih =>
    intro nowMs poll buf h1 h2
    rw [okScanLoop]
    by_cases hlt : timeoutMs < nowMs
    · rw [if_pos hlt]
      have : nowMs = timeoutMs + 1 := by omega
      rw [this]
    · rw [if_neg hlt]
      show okScanLoop silentTransport timeoutMs k (poll + 1) (nowMs + 1) buf =
        some (FrameOut.timedOut (timeoutMs + 1) buf)
      exact ih (nowMs + 1) (poll + 1) buf (by omega) (by omega)

theorem versionLoop_silent_eq (timeoutMs : Nat) :
    ∀ fuel nowMs poll, nowMs + fuel = timeoutMs + 2 → nowMs ≤ timeoutMs + 1 →
      versionLoop silentTransport timeoutMs fuel poll nowMs [] =
        some (FrameOut.timedOut (timeoutMs + 1) []) := by
  intro fuel
  induction fuel with
  | zero =>
    intro nowMs poll h1 h2
    omega
  | succ k ih =>
    intro nowMs poll h1 h2
    rw [versionLoop]
    by_cases hlt : timeoutMs < nowMs
    · rw [if_pos hlt]
      have : nowMs = timeoutMs + 1 := by omega
      rw [this]
    · rw [if_neg hlt]
      show (if !([] : List Char).isEmpty && decide (100 < nowMs) then
          some (FrameOut.complete nowMs [])
        else versionLoop silentTransport timeoutMs k (poll + 1) (nowMs + 1) []) =
          some (FrameOut.timedOut (timeoutMs + 1) [])
      rw [if_neg (by simp)]
      exact ih (nowMs + 1) (poll + 1) (by omega) (by omega)

theorem versionLoop_silent_not_complete (timeoutMs : Nat) :
    ∀ fuel poll nowMs,
      isComplete (versionLoop silentTransport timeoutMs fuel poll nowMs []) = false := by
  intro fuel
  induction fuel with
  | zero => intro poll nowMs; rfl
  | succ k ih =>
    intro poll nowMs
    rw [versionLoop]
    by_cases hlt : timeoutMs < nowMs
    · rw [if_pos hlt]
      rfl
    · rw [if_neg hlt]
      show isComplete (if !([] : List Char).isEmpty && decide (100 < nowMs) then
          some (FrameOut.complete nowMs [])
        else versionLoop silentTransport timeoutMs k (poll + 1) (nowMs + 1) []) = false
      rw [if_neg (by simp)]
      exact ih (poll + 1) (nowMs + 1)

/-- Claim C8 counterexample: with the default 3000 ms deadline and a
transport that never satisfies the framing rule, the OK-scan exchange
fails 3011 ms after the command was sent — later than the claimed bound
of deadline plus one poll interval (3001 ms) — because the 10 ms settle
sleep runs after the send but before the timeout clock starts. -/
theorem okScan_timeout_late_cex :
    elapsedAfterSend (okScanSilent 3000) = some 3011 ∧
      3000 + pollIntervalMs < 3011 := by
  constructor
  · rw [okScanSilent, okScanLoop_silent_eq 3000 3002 0 0 [] (by omega) (by omega)]
    rfl
  · decide

/-- Claim C8 (amended): for every deadline, an OK-scan exchange over a
transport that never yields the required bytes fails with a timeout
exactly one poll interval after the deadline as measured from the start
of the read loop — which begins 10 ms (the fixed post-send settle sleep)
after the command was sent — i.e. at deadline + 10 ms + one poll interval
after the send, and never earlier than the deadline. -/
theorem okScan_timeout_time (timeoutMs : Nat) :
    okScanSilent timeoutMs = some (FrameOut.timedOut (timeoutMs + 1) []) ∧
      elapsedAfterSend (okScanSilent timeoutMs) =
        some (timeoutMs + sendSettleDelayMs + pollIntervalMs) ∧
      timeoutMs < timeoutMs + sendSettleDelayMs + pollIntervalMs := by
  have h := okScanLoop_silent_eq timeoutMs (timeoutMs + 2) 0 0 [] (by omega) (by omega)
  rw [okScanSilent, h]
  refine ⟨rfl, ?_, by unfold sendSettleDelayMs pollIntervalMs; omega⟩
  show some (sendSettleDelayMs + (timeoutMs + 1)) =
    some (timeoutMs + sendSettleDelayMs + pollIntervalMs)
  rw [show sendSettleDelayMs + (timeoutMs + 1) =
    timeoutMs + sendSettleDelayMs + pollIntervalMs by
      unfold sendSettleDelayMs pollIntervalMs; omega]

/-- Claim C9: a quiet-period-framed exchange (the version query) over a
transport that delivers no byte at all never completes with an empty
reply — the quiet-window completion requires at least one received byte —
and instead fails with a timeout one poll interval past the deadline. -/
theorem version_silent_times_out :
    (∀ timeoutMs fuel poll nowMs : Nat,
        isComplete (versionLoop silentTransport timeoutMs fuel poll nowMs []) = false) ∧
      (∀ timeoutMs : Nat,
        versionSilent timeoutMs = some (FrameOut.timedOut (timeoutMs + 1) [])) := by
  refine ⟨versionLoop_silent_not_complete, fun timeoutMs => ?_⟩
  rw [versionSilent]
  exact versionLoop_silent_eq timeoutMs (timeoutMs + 2) 0 0 (by omega) (by omega)

end OfxEbb
